import Mathlib

/-!
Shallow embedding of the Neuronix guardian-agent memory core
(`memoryManager.ts` together with the record types of `memory.ts`).

Modelling conventions:
- JavaScript numbers are embedded as rationals (`ℚ`); all score arithmetic of
  the source is exact over `ℚ`.
- Timestamps (ISO strings round-tripped through `Date`) are embedded as the
  epoch-milliseconds value they denote, a rational `now` passed explicitly.
- The nondeterministic id `mem_${Date.now()}_${random}` is embedded as an
  explicitly supplied fresh id string.
- The mutable `this.memories` array is embedded as a `List MemoryRecord`
  threaded through each operation; methods that mutate return the new list.
- `console.log` calls are pure observations and are dropped.
-/

namespace Neuronix

/-- The closed emotion enumeration of `MemoryRecord.emotion_flag`. -/
inductive Emotion where
  | happy | sad | angry | neutral | excited | anxious | curious
deriving DecidableEq, Repr

/-- The closed enumeration of `MemoryRecord.source_type`. -/
inductive SourceType where
  | user_input | system_generated | tool_output | conversation
deriving DecidableEq, Repr

/-- The closed enumeration of `MemoryRecord.write_method`. -/
inductive WriteMethod where
  | manual | automatic | importance_detected
deriving DecidableEq, Repr

/-- Embedding of the `MemoryRecord` interface of `memory.ts` (the optional
`embedding` vector is never populated or consumed by the core and is omitted). -/
structure MemoryRecord where
  id : String
  user_id : String
  title : String
  content : String
  importance_score : ℚ
  emotion_flag : Emotion
  date_created : ℚ
  last_accessed : ℚ
  usage_count : ℕ
  decay_rate : ℚ
  context_tags : List String
  source_type : SourceType
  write_method : WriteMethod
  dream_state : Bool
deriving DecidableEq, Repr

/-- Embedding of `MemoryManager.currentUserId`. -/
def currentUserId : String := "lyra-user-001"

/-- Embedding of `MemoryManager.getEmotionalWeight`: the fixed lookup table.  Every
`emotion_flag` value is a key of the table, so the `|| 0.3` fallback of the
source is unreachable on the closed enumeration. -/
def getEmotionalWeight : Emotion → ℚ
  | .happy => 7/10
  | .excited => 8/10
  | .anxious => 9/10
  | .angry => 85/100
  | .sad => 75/100
  | .curious => 6/10
  | .neutral => 3/10

/-- Embedding of `MemoryManager.calculateDecay`; `now` is `Date.now()` in milliseconds. -/
def calculateDecay (now : ℚ) (memory : MemoryRecord) : ℚ :=
  let timeSinceAccess := now - memory.last_accessed
  let daysSinceAccess := timeSinceAccess / (1000 * 60 * 60 * 24)
  let baseDamping : ℚ := 5/100
  let usageProtection := min (8/10) ((memory.usage_count : ℚ) * (1/10))
  let emotionalProtection := getEmotionalWeight memory.emotion_flag * (2/10)
  let effectiveDecay := baseDamping * (1 - usageProtection - emotionalProtection)
  max 0 (memory.importance_score - effectiveDecay * daysSinceAccess)

/-- JavaScript `String.prototype.toLowerCase` on the ASCII content the core
handles: lower-case every character. -/
def jsToLower (s : String) : String := String.mk (s.data.map Char.toLower)

/-- Substring occurrence on character lists: true when `needle` occurs as a
contiguous run inside `haystack`. -/
def listIncludes (needle : List Char) : List Char → Bool
  | [] => needle.isEmpty
  | c :: rest => List.isPrefixOf needle (c :: rest) || listIncludes needle rest

/-- JavaScript `haystack.includes(needle)`. -/
def jsIncludes (haystack needle : String) : Bool :=
  listIncludes needle.data haystack.data

/-- The fixed importance keyword list of `detectImportance`. -/
def importanceKeywords : List String :=
  ["important", "critical", "urgent", "remember", "never forget",
   "warning", "danger", "emergency", "secret", "password", "key"]

/-- The fixed emotional keyword list of `detectImportance`. -/
def emotionalKeywords : List String :=
  ["love", "hate", "fear", "joy", "anger", "excited", "worried"]

/-- Embedding of `MemoryManager.detectImportance`: the source adds 0.2 once per keyword of
the importance list found in the lowercased content (each keyword is tested
once, so each distinct keyword contributes once), 0.15 per emotional keyword,
plus the two length bonuses, clamped by `Math.min(1, ·)`. -/
def detectImportance (content : String) : ℚ :=
  let lower := jsToLower content
  let score : ℚ := 3/10
    + ((importanceKeywords.filter (fun kw => jsIncludes lower kw)).length : ℚ) * (2/10)
    + ((emotionalKeywords.filter (fun kw => jsIncludes lower kw)).length : ℚ) * (15/100)
  let score := if content.length > 200 then score + 1/10 else score
  let score := if content.length > 500 then score + 1/10 else score
  min 1 score

/-- The stop-word set of `extractContextTags`. -/
def commonWords : List String :=
  ["the", "and", "or", "but", "in", "on", "at", "to", "for", "of", "with",
   "by", "is", "are", "was", "were", "be", "been", "have", "has", "had",
   "do", "does", "did", "will", "would", "could", "should", "may", "might",
   "can", "a", "an"]

/-- A regex word character (`\w`). -/
def isWordChar (c : Char) : Bool := c.isAlphanum || c = '_'

/-- Embedding of `content.toLowerCase().match(/\b\w+\b/g)`: the maximal runs of word
characters of the lowercased content. -/
def wordTokens (content : String) : List String :=
  (((jsToLower content).data.splitOnP (fun c => !isWordChar c)).filter
    (fun w => !w.isEmpty)).map (fun cs => String.mk cs)

/-- The frequency-count accumulator of `extractContextTags` (a JS object keeps
keys in first-insertion order, so `Object.entries` lists each word with its
count in first-occurrence order). -/
def countTags (tokens : List String) : List (String × ℕ) :=
  tokens.foldl (fun acc w =>
    if acc.any (fun p => p.1 = w) then
      acc.map (fun p => if p.1 = w then (p.1, p.2 + 1) else p)
    else acc ++ [(w, 1)]) []

/-- Embedding of `MemoryManager.extractContextTags`: tokenize, drop stop words and short
tokens, count, sort by descending count (stable), keep the top 5 words. -/
def extractContextTags (content : String) : List String :=
  let tags := countTags ((wordTokens content).filter
    (fun word => word.length > 3 && !commonWords.contains word))
  ((tags.mergeSort (fun p q => decide (q.2 ≤ p.2))).take 5).map Prod.fst

/-- Embedding of `MemoryManager.createMemory`: builds the record, appends it to the store,
and returns it.  `freshId` stands for the generated
`mem_${Date.now()}_${random}` id and `now` for `new Date().toISOString()`. -/
def createMemory (store : List MemoryRecord) (freshId : String) (now : ℚ)
    (title content : String) (emotion : Emotion) (sourceType : SourceType)
    (writeMethod : WriteMethod) : MemoryRecord × List MemoryRecord :=
  let importance := detectImportance content
  let contextTags := extractContextTags content
  let memory : MemoryRecord :=
    { id := freshId
      user_id := currentUserId
      title := title
      content := content
      importance_score := importance
      emotion_flag := emotion
      date_created := now
      last_accessed := now
      usage_count := 1
      decay_rate := 5/100
      context_tags := contextTags
      source_type := sourceType
      write_method := writeMethod
      dream_state := false }
  (memory, store ++ [memory])

/-- The per-record mutation performed by `accessMemory` on the found record. -/
def accessUpdate (now : ℚ) (m : MemoryRecord) : MemoryRecord :=
  { m with
      usage_count := m.usage_count + 1
      last_accessed := now
      importance_score := min 1 (m.importance_score + 5/100) }

/-- Embedding of `MemoryManager.accessMemory`: `this.memories.find(m => m.id === memoryId)`
locates the first record with the id and mutates it in place; absent ids
yield `null` (embedded as `none`) and leave the array untouched. -/
def accessMemory (store : List MemoryRecord) (memoryId : String) (now : ℚ) :
    Option MemoryRecord × List MemoryRecord :=
  match store with
  | [] => (none, [])
  | m :: rest =>
    if m.id = memoryId then
      let m := accessUpdate now m
      (some m, m :: rest)
    else
      let r := accessMemory rest memoryId now
      (r.1, m :: r.2)

/-- Embedding of the `MemoryQuery` interface; an optional field is `none` when
absent. -/
structure MemoryQuery where
  content : Option String := none
  emotion : Option Emotion := none
  context_tags : Option (List String) := none
  min_importance : Option ℚ := none
  limit : Option ℤ := none
deriving DecidableEq, Repr

/-- A record copy annotated with the derived `current_importance` field, as
spread by `retrieveMemories` and `getAllMemories`. -/
structure RankedMemory where
  record : MemoryRecord
  current_importance : ℚ
deriving DecidableEq, Repr

/-- The filter body of `retrieveMemories`.  JS truthiness guards each clause:
`min_importance` equal to 0 and `content` equal to the empty string are falsy,
so those clauses are skipped; a present `context_tags` array is always truthy. -/
def passesQuery (query : MemoryQuery) (memory : RankedMemory) : Bool :=
  (match query.min_importance with
   | some mi => !(decide (mi ≠ 0) && decide (memory.current_importance < mi))
   | none => true) &&
  (match query.emotion with
   | some e => !decide (memory.record.emotion_flag ≠ e)
   | none => true) &&
  (match query.content with
   | some c => !(decide (c ≠ "") && !jsIncludes (jsToLower memory.record.content) (jsToLower c))
   | none => true) &&
  (match query.context_tags with
   | some tags => !(!tags.any (fun tag => memory.record.context_tags.contains tag))
   | none => true)

/-- JavaScript `array.slice(0, e)`: a negative `e` counts from the end. -/
def jsSliceTo (l : List RankedMemory) (e : ℤ) : List RankedMemory :=
  if e < 0 then l.take ((l.length : ℤ) + e).toNat else l.take e.toNat

/-- Embedding of `query.limit || 10`: an absent limit and the falsy limit 0 both give 10. -/
def effectiveLimit (limit : Option ℤ) : ℤ :=
  match limit with
  | some n => if n = 0 then 10 else n
  | none => 10

/-- Embedding of `MemoryManager.retrieveMemories`: annotate every record with its decayed
importance, filter, sort by descending `current_importance` (`Array.sort` is
stable), and truncate with `slice(0, query.limit || 10)`.  The store itself is
only read, never written. -/
def retrieveMemories (store : List MemoryRecord) (now : ℚ) (query : MemoryQuery) :
    List RankedMemory :=
  let ranked := store.map (fun m => RankedMemory.mk m (calculateDecay now m))
  let filtered := ranked.filter (passesQuery query)
  let sorted := filtered.mergeSort
    (fun a b => decide (b.current_importance ≤ a.current_importance))
  jsSliceTo sorted (effectiveLimit query.limit)

/-- The operation pair returned to a caller of `retrieveMemories`: the result
list together with the (unchanged) store, making the absence of mutation an
explicit part of the embedded signature. -/
def retrieveOp (store : List MemoryRecord) (now : ℚ) (query : MemoryQuery) :
    List RankedMemory × List MemoryRecord :=
  (retrieveMemories store now query, store)

/-- Embedding of the `MemoryStats` interface; `emotional_distribution` is the
count of records per emotion category. -/
structure MemoryStats where
  total_memories : ℕ
  active_memories : ℕ
  decayed_memories : ℕ
  average_importance : ℚ
  emotional_distribution : Emotion → ℕ
  recent_activity : ℕ

/-- Embedding of `MemoryManager.getMemoryStats`.  On an empty store the source computes
`0 / 0 || 0`, i.e. the `NaN` produced by the division is replaced by 0; the
emptiness guard embeds that. -/
def getMemoryStats (store : List MemoryRecord) (now : ℚ) : MemoryStats :=
  let active := store.filter (fun m => decide ((1:ℚ)/10 < calculateDecay now m))
  { total_memories := store.length
    active_memories := active.length
    decayed_memories := store.length - active.length
    average_importance :=
      if store.isEmpty then 0
      else (store.map (calculateDecay now)).sum / (store.length : ℚ)
    emotional_distribution := fun e =>
      (store.filter (fun m => decide (m.emotion_flag = e))).length
    recent_activity :=
      (store.filter (fun m => decide (now - m.last_accessed < 24 * 60 * 60 * 1000))).length }

/-- The first pass of `dreamStateProcessing`: boost records whose
`usage_count` exceeds 3. -/
def dreamBoost (m : MemoryRecord) : MemoryRecord :=
  if m.usage_count > 3 then
    { m with importance_score := min 1 (m.importance_score + 2/100) }
  else m

/-- The second pass of `dreamStateProcessing`: mark every record processed. -/
def dreamMark (m : MemoryRecord) : MemoryRecord := { m with dream_state := true }

/-- Embedding of `MemoryManager.dreamStateProcessing`: two `forEach` passes over the
store, embedded as two maps. -/
def dreamStateProcessing (store : List MemoryRecord) : List MemoryRecord :=
  (store.map dreamBoost).map dreamMark

/-- Embedding of `MemoryManager.getAllMemories`. -/
def getAllMemories (store : List MemoryRecord) (now : ℚ) : List RankedMemory :=
  store.map (fun m => RankedMemory.mk m (calculateDecay now m))

/-- A concrete record used to instantiate hypothesis-bearing theorems. -/
def sampleRecord : MemoryRecord :=
  { id := "mem_1"
    user_id := currentUserId
    title := "note"
    content := "a note"
    importance_score := 1/2
    emotion_flag := .neutral
    date_created := 0
    last_accessed := 0
    usage_count := 1
    decay_rate := 5/100
    context_tags := []
    source_type := .user_input
    write_method := .manual
    dream_state := false }

/-- Every emotional weight of the lookup table is at most 9/10. -/
theorem getEmotionalWeight_le (e : Emotion) : getEmotionalWeight e ≤ 9/10 := by
  cases e <;> norm_num [getEmotionalWeight]

/-- The effective decay rate of `calculateDecay` is nonnegative: usage
protection is capped at 0.8 and emotional protection at 0.9 times 0.2. -/
theorem effectiveDecay_nonneg (m : MemoryRecord) :
    (0:ℚ) ≤ 5/100 * (1 - min (8/10) ((m.usage_count : ℚ) * (1/10))
      - getEmotionalWeight m.emotion_flag * (2/10)) := by
  have hup : min ((8:ℚ)/10) ((m.usage_count : ℚ) * (1/10)) ≤ 8/10 := min_le_left _ _
  have hw : getEmotionalWeight m.emotion_flag ≤ 9/10 := getEmotionalWeight_le _
  nlinarith

/-- C2: for a fixed record (fixed importance score, usage count and emotion
flag), the effective score computed by `calculateDecay` is monotonically
non-increasing as `daysSinceAccess` grows over the interval starting at 0:
moving the evaluation time from `now₁` to a later `now₂` never increases the
result. -/
theorem c2_calculateDecay_monotone (m : MemoryRecord) (now₁ now₂ : ℚ)
    (h₀ : m.last_accessed ≤ now₁) (h₁₂ : now₁ ≤ now₂) :
    calculateDecay now₂ m ≤ calculateDecay now₁ m := by
  simp only [calculateDecay]
  apply max_le_max le_rfl
  have hd : (now₁ - m.last_accessed) / (1000*60*60*24)
      ≤ (now₂ - m.last_accessed) / (1000*60*60*24) :=
    div_le_div_of_nonneg_right (by linarith) (by norm_num)
  exact sub_le_sub_left
    (mul_le_mul_of_nonneg_left hd (effectiveDecay_nonneg m)) _

/-- Witness for C2 at a concrete record and concrete times. -/
theorem c2_calculateDecay_monotone_witness :
    sampleRecord.last_accessed ≤ 0 ∧ (0:ℚ) ≤ 86400000 ∧
      calculateDecay 86400000 sampleRecord ≤ calculateDecay 0 sampleRecord :=
  ⟨le_refl 0, by norm_num,
    c2_calculateDecay_monotone sampleRecord 0 86400000 (le_refl 0) (by norm_num)⟩

/-- C3: `detectImportance` is the pure function of the content that returns
the clamp to 1 of: 0.3, plus 0.2 per distinct importance keyword occurring
case-insensitively as a substring, plus 0.15 per distinct emotional keyword so
occurring, plus 0.1 if the length exceeds 200 and another 0.1 beyond 500; on
the content "This is urgent, remember the password!" it returns exactly
0.9. -/
theorem c3_detectImportance_formula :
    (∀ content : String,
      detectImportance content =
        min 1 ((3:ℚ)/10
          + (importanceKeywords.countP
              (fun kw => jsIncludes (jsToLower content) kw) : ℚ) * (2/10)
          + (emotionalKeywords.countP
              (fun kw => jsIncludes (jsToLower content) kw) : ℚ) * (15/100)
          + (if content.length > 200 then 1/10 else 0)
          + (if content.length > 500 then 1/10 else 0))) ∧
    detectImportance "This is urgent, remember the password!" = 9/10 := by
  constructor
  · intro content
    simp only [detectImportance, List.countP_eq_length_filter]
    split_ifs <;> (congr 1 <;> ring)
  · have hik : (importanceKeywords.filter
        (fun kw => jsIncludes (jsToLower "This is urgent, remember the password!") kw)).length
        = 3 := by decide
    have hek : (emotionalKeywords.filter
        (fun kw => jsIncludes (jsToLower "This is urgent, remember the password!") kw)).length
        = 0 := by decide
    have hl : ("This is urgent, remember the password!").length = 38 := by decide
    simp only [detectImportance, hik, hek, hl]
    norm_num

/-- C4: when the store holds a record with the requested id (the first such
record, as located by the `find` of the source), `accessMemory` increments its
usage count by exactly 1, sets its last-access time to the call time, raises
its importance score by exactly 0.05 clamped to 1, returns the updated record,
and replaces exactly that record in the store; a second access keeps raising
the score (not idempotent) until the clamp. -/
theorem c4_accessMemory_strengthens (pre post : List MemoryRecord)
    (m : MemoryRecord) (memoryId : String) (now : ℚ)
    (hpre : ∀ x ∈ pre, x.id ≠ memoryId) (hm : m.id = memoryId) :
    accessMemory (pre ++ m :: post) memoryId now =
      (some (accessUpdate now m), pre ++ accessUpdate now m :: post) ∧
    (accessUpdate now m).usage_count = m.usage_count + 1 ∧
    (accessUpdate now m).last_accessed = now ∧
    (accessUpdate now m).importance_score = min 1 (m.importance_score + 5/100) ∧
    (m.importance_score + 1/10 ≤ 1 →
      (accessUpdate now (accessUpdate now m)).importance_score
          = m.importance_score + 1/10 ∧
      (accessUpdate now (accessUpdate now m)).importance_score
          ≠ (accessUpdate now m).importance_score) := by
  refine ⟨?_, rfl, rfl, rfl, ?_⟩
  · induction pre with
    | nil => simp [accessMemory, hm]
    | cons x xs ih =>
      have hx : ¬ (x.id = memoryId) := hpre x (List.mem_cons_self x xs)
      simp only [List.cons_append, accessMemory, if_neg hx, List.append_eq,
        ih (fun y hy => hpre y (List.mem_cons_of_mem x hy))]
  · intro hcap
    have h1 : m.importance_score + 5/100 ≤ 1 := by linarith
    have hfst : (accessUpdate now m).importance_score
        = m.importance_score + 5/100 := min_eq_right h1
    have hsnd : (accessUpdate now (accessUpdate now m)).importance_score
        = m.importance_score + 1/10 := by
      show min 1 ((accessUpdate now m).importance_score + 5/100)
          = m.importance_score + 1/10
      rw [hfst, min_eq_right (by linarith)]
      ring
    refine ⟨hsnd, ?_⟩
    rw [hsnd, hfst]
    intro hEq
    have : (1:ℚ)/10 = 5/100 := by linarith
    norm_num at this

/-- Witness for C4 on a one-record store. -/
theorem c4_accessMemory_strengthens_witness :
    (∀ x ∈ ([] : List MemoryRecord), x.id ≠ "mem_1") ∧
    sampleRecord.id = "mem_1" ∧
    (accessMemory ([] ++ sampleRecord :: []) "mem_1" 5 =
        (some (accessUpdate 5 sampleRecord),
          [] ++ accessUpdate 5 sampleRecord :: []) ∧
      (accessUpdate 5 sampleRecord).usage_count = sampleRecord.usage_count + 1 ∧
      (accessUpdate 5 sampleRecord).last_accessed = 5 ∧
      (accessUpdate 5 sampleRecord).importance_score
          = min 1 (sampleRecord.importance_score + 5/100) ∧
      (sampleRecord.importance_score + 1/10 ≤ 1 →
        (accessUpdate 5 (accessUpdate 5 sampleRecord)).importance_score
            = sampleRecord.importance_score + 1/10 ∧
        (accessUpdate 5 (accessUpdate 5 sampleRecord)).importance_score
            ≠ (accessUpdate 5 sampleRecord).importance_score)) :=
  ⟨by simp, rfl,
    c4_accessMemory_strengthens [] [] sampleRecord "mem_1" 5 (by simp) rfl⟩

/-- C6: `accessMemory` on an id absent from the store returns the typed
not-found result (`none`, the embedding of the source's `null`) and leaves the
store completely unchanged: same list, hence same size and same records. -/
theorem c6_accessMemory_notFound (store : List MemoryRecord)
    (memoryId : String) (now : ℚ) (habs : ∀ x ∈ store, x.id ≠ memoryId) :
    accessMemory store memoryId now = (none, store) := by
  induction store with
  | nil => rfl
  | cons x xs ih =>
    have hx : ¬ (x.id = memoryId) := habs x (List.mem_cons_self x xs)
    simp only [accessMemory, if_neg hx,
      ih (fun y hy => habs y (List.mem_cons_of_mem x hy))]

/-- Witness for C6: a nonexistent id against a one-record store. -/
theorem c6_accessMemory_notFound_witness :
    (∀ x ∈ [sampleRecord], x.id ≠ "missing") ∧
      accessMemory [sampleRecord] "missing" 0 = (none, [sampleRecord]) :=
  ⟨by decide, c6_accessMemory_notFound [sampleRecord] "missing" 0 (by decide)⟩

/-- C7: every `dreamStateProcessing` call adds 0.02 (clamped to 1) to the
importance score of each record whose usage count exceeds 3 and sets every
record's dream-state flag to true; on a record with usage count 5 (and room
below the clamp) two consecutive calls each add 0.02, while the flag is true
after the first call and stays true after the second. -/
theorem c7_dreamStateProcessing_consolidate (store : List MemoryRecord)
    (m : MemoryRecord) (hm : m.usage_count = 5)
    (hcap : m.importance_score + 4/100 ≤ 1) :
    dreamStateProcessing store = store.map (fun r =>
      { r with
          importance_score := if r.usage_count > 3
            then min 1 (r.importance_score + 2/100) else r.importance_score
          dream_state := true }) ∧
    ∃ m₁ m₂, dreamStateProcessing [m] = [m₁] ∧ dreamStateProcessing [m₁] = [m₂] ∧
      m₁.importance_score = m.importance_score + 2/100 ∧
      m₂.importance_score = m.importance_score + 4/100 ∧
      m₁.dream_state = true ∧ m₂.dream_state = true := by
  have hboost : ∀ r : MemoryRecord, r.usage_count = 5 →
      r.importance_score + 2/100 ≤ 1 →
      (dreamMark (dreamBoost r)).importance_score = r.importance_score + 2/100 := by
    intro r hr hrc
    show (dreamBoost r).importance_score = r.importance_score + 2/100
    simp only [dreamBoost, hr]
    rw [if_pos (by norm_num : (5:ℕ) > 3)]
    exact min_eq_right hrc
  constructor
  · simp only [dreamStateProcessing, List.map_map]
    congr 1
    funext r
    simp only [Function.comp_apply, dreamBoost, dreamMark]
    split_ifs <;> rfl
  · refine ⟨dreamMark (dreamBoost m),
      dreamMark (dreamBoost (dreamMark (dreamBoost m))), rfl, rfl, ?_, ?_, rfl, rfl⟩
    · exact hboost m hm (by linarith)
    · have h₁ : (dreamMark (dreamBoost m)).importance_score
          = m.importance_score + 2/100 := hboost m hm (by linarith)
      have hu : (dreamMark (dreamBoost m)).usage_count = 5 := by
        show (dreamBoost m).usage_count = 5
        simp only [dreamBoost]
        split_ifs <;> exact hm
      rw [hboost _ hu (by rw [h₁]; linarith), h₁]
      ring

/-- Witness for C7 at a concrete record with usage count 5. -/
theorem c7_dreamStateProcessing_consolidate_witness :
    ({ sampleRecord with usage_count := 5 } : MemoryRecord).usage_count = 5 ∧
    ({ sampleRecord with usage_count := 5 } : MemoryRecord).importance_score
        + 4/100 ≤ 1 ∧
    dreamStateProcessing [] = [] :=
  ⟨rfl, by norm_num [sampleRecord],
    (c7_dreamStateProcessing_consolidate []
      { sampleRecord with usage_count := 5 } rfl
      (by norm_num [sampleRecord])).1.trans rfl⟩

/-- C10: `dreamStateProcessing` adds no record, removes no record, and changes
no field other than the importance score and the dream-state flag: every other
field of the record at each position is preserved. -/
theorem c10_dreamStateProcessing_frame (store : List MemoryRecord) :
    (dreamStateProcessing store).length = store.length ∧
    ∀ (i : ℕ) (m m' : MemoryRecord), store[i]? = some m →
      (dreamStateProcessing store)[i]? = some m' →
      m'.id = m.id ∧ m'.user_id = m.user_id ∧ m'.title = m.title ∧
      m'.content = m.content ∧ m'.emotion_flag = m.emotion_flag ∧
      m'.date_created = m.date_created ∧ m'.last_accessed = m.last_accessed ∧
      m'.usage_count = m.usage_count ∧ m'.decay_rate = m.decay_rate ∧
      m'.context_tags = m.context_tags ∧ m'.source_type = m.source_type ∧
      m'.write_method = m.write_method := by
  constructor
  · simp [dreamStateProcessing]
  · intro i m m' hm hm'
    simp only [dreamStateProcessing, List.map_map, List.getElem?_map, hm,
      Option.map_some'] at hm'
    have hm'' : m' = dreamMark (dreamBoost m) := (Option.some.injEq _ _).mp hm' |>.symm
    subst hm''
    by_cases h : m.usage_count > 3 <;>
      simp [dreamMark, dreamBoost, h]

/-- Witness for C10 on a one-record store. -/
theorem c10_dreamStateProcessing_frame_witness :
    ([sampleRecord][0]? = some sampleRecord) ∧
    ((dreamStateProcessing [sampleRecord])[0]?
        = some (dreamMark (dreamBoost sampleRecord))) ∧
    (dreamMark (dreamBoost sampleRecord)).usage_count = sampleRecord.usage_count :=
  ⟨rfl, rfl,
    ((c10_dreamStateProcessing_frame [sampleRecord]).2 0 sampleRecord
      (dreamMark (dreamBoost sampleRecord)) rfl rfl).2.2.2.2.2.2.2.1⟩

/-- C8: `getMemoryStats` on the empty store returns a total count of 0, a
decayed count of 0, and an average importance of 0, with no division by
zero. -/
theorem c8_getMemoryStats_empty (now : ℚ) :
    (getMemoryStats [] now).total_memories = 0 ∧
    (getMemoryStats [] now).decayed_memories = 0 ∧
    (getMemoryStats [] now).average_importance = 0 :=
  ⟨rfl, rfl, rfl⟩

/-- The comparison passed to the sort of `retrieveMemories` is transitive. -/
theorem rankedLe_trans (a b c : RankedMemory)
    (hab : decide (b.current_importance ≤ a.current_importance) = true)
    (hbc : decide (c.current_importance ≤ b.current_importance) = true) :
    decide (c.current_importance ≤ a.current_importance) = true := by
  simp only [decide_eq_true_eq] at *
  exact le_trans hbc hab

/-- The comparison passed to the sort of `retrieveMemories` is total. -/
theorem rankedLe_total (a b : RankedMemory) :
    (decide (b.current_importance ≤ a.current_importance)
      || decide (a.current_importance ≤ b.current_importance)) = true := by
  simp only [Bool.or_eq_true, decide_eq_true_eq]
  exact le_total _ _

/-- C5: `retrieveMemories` with no filters and a limit N ≥ 1 leaves the store
unchanged, returns at most N records, returns them sorted by non-increasing
`current_importance`, and every returned record carries the decay-adjusted
score computed at call time. -/
theorem c5_retrieveMemories_sorted (store : List MemoryRecord) (now : ℚ)
    (N : ℤ) (hN : 1 ≤ N) :
    retrieveOp store now { limit := some N } =
      (retrieveMemories store now { limit := some N }, store) ∧
    ((retrieveMemories store now { limit := some N }).length : ℤ) ≤ N ∧
    (retrieveMemories store now { limit := some N }).Pairwise
      (fun a b => b.current_importance ≤ a.current_importance) ∧
    ∀ rm ∈ retrieveMemories store now { limit := some N },
      rm.current_importance = calculateDecay now rm.record := by
  have hfilter : (store.map (fun m => RankedMemory.mk m (calculateDecay now m))).filter
      (passesQuery { limit := some N }) =
      store.map (fun m => RankedMemory.mk m (calculateDecay now m)) :=
    List.filter_eq_self.mpr (fun a _ => rfl)
  have hret : retrieveMemories store now { limit := some N } =
      ((store.map (fun m => RankedMemory.mk m (calculateDecay now m))).mergeSort
        (fun a b => decide (b.current_importance ≤ a.current_importance))).take
        N.toNat := by
    simp only [retrieveMemories, hfilter, effectiveLimit, jsSliceTo]
    rw [if_neg (by omega : ¬ N = 0), if_neg (by omega : ¬ N < 0)]
  refine ⟨rfl, ?_, ?_, ?_⟩
  · rw [hret]
    have h1 := List.length_take_le N.toNat
      ((store.map (fun m => RankedMemory.mk m (calculateDecay now m))).mergeSort
        (fun a b => decide (b.current_importance ≤ a.current_importance)))
    omega
  · rw [hret]
    have hsorted := List.sorted_mergeSort rankedLe_trans rankedLe_total
      (store.map (fun m => RankedMemory.mk m (calculateDecay now m)))
    exact List.Pairwise.sublist (List.take_sublist _ _)
      (hsorted.imp (fun h => of_decide_eq_true h))
  · intro rm hmem
    rw [hret] at hmem
    have h1 := List.mem_of_mem_take hmem
    have h2 := (List.mergeSort_perm
      (store.map (fun m => RankedMemory.mk m (calculateDecay now m)))
      (fun a b => decide (b.current_importance ≤ a.current_importance))).mem_iff.mp h1
    obtain ⟨m, _, hrm⟩ := List.mem_map.mp h2
    rw [← hrm]

/-- Witness for C5 on a one-record store with limit 1. -/
theorem c5_retrieveMemories_sorted_witness :
    (1:ℤ) ≤ 1 ∧
      retrieveOp [sampleRecord] 0 { limit := some 1 } =
        (retrieveMemories [sampleRecord] 0 { limit := some 1 }, [sampleRecord]) :=
  ⟨le_refl 1, (c5_retrieveMemories_sorted [sampleRecord] 0 1 (le_refl 1)).1⟩

/-- The score of `detectImportance` is never negative. -/
theorem detectImportance_nonneg (content : String) :
    0 ≤ detectImportance content := by
  unfold detectImportance
  split_ifs <;> positivity

/-- The score of `detectImportance` never exceeds 1. -/
theorem detectImportance_le_one (content : String) :
    detectImportance content ≤ 1 := by
  unfold detectImportance
  split_ifs <;> exact min_le_left _ _

/-- The record-level invariant of the store: importance scores lie in [0,1]
and every usage count is at least 1. -/
def Inv (store : List MemoryRecord) : Prop :=
  ∀ m ∈ store, 0 ≤ m.importance_score ∧ m.importance_score ≤ 1 ∧
    1 ≤ m.usage_count

/-- C9: the invariant that every record's importance score lies in [0,1] and
its usage count is at least 1 holds after every `createMemory` and is
preserved by every mutating operation of the core: `createMemory`,
`accessMemory` and `dreamStateProcessing` (`retrieveMemories` and
`getMemoryStats` do not touch the store). -/
theorem c9_invariants (store : List MemoryRecord) (h : Inv store)
    (freshId : String) (now : ℚ) (title content : String) (emotion : Emotion)
    (sourceType : SourceType) (writeMethod : WriteMethod) (memoryId : String) :
    Inv (createMemory store freshId now title content emotion
        sourceType writeMethod).2 ∧
    Inv (accessMemory store memoryId now).2 ∧
    Inv (dreamStateProcessing store) := by
  refine ⟨?_, ?_, ?_⟩
  · intro m hm
    rcases List.mem_append.mp hm with hm' | hm'
    · exact h m hm'
    · rcases List.mem_singleton.mp hm' with rfl
      exact ⟨detectImportance_nonneg content, detectImportance_le_one content,
        le_refl 1⟩
  · have key : ∀ s : List MemoryRecord, Inv s →
        Inv (accessMemory s memoryId now).2 := by
      intro s
      induction s with
      | nil => intro _ m hm; simp [accessMemory] at hm
      | cons x xs ih =>
        intro hs
        by_cases hx : x.id = memoryId
        · simp only [accessMemory, if_pos hx]
          intro m hm
          rcases List.mem_cons.mp hm with rfl | hm'
          · obtain ⟨h0, _, _⟩ := hs x (List.mem_cons_self x xs)
            refine ⟨le_min (by norm_num) (by linarith), min_le_left _ _, ?_⟩
            show 1 ≤ x.usage_count + 1
            omega
          · exact hs m (List.mem_cons_of_mem x hm')
        · simp only [accessMemory, if_neg hx]
          intro m hm
          rcases List.mem_cons.mp hm with rfl | hm'
          · exact hs m (List.mem_cons_self m xs)
          · exact ih (fun y hy => hs y (List.mem_cons_of_mem x hy)) m hm'
    exact key store h
  · intro m hm
    simp only [dreamStateProcessing, List.map_map] at hm
    obtain ⟨r, hr, hrm⟩ := List.mem_map.mp hm
    obtain ⟨h0, h1, h2⟩ := h r hr
    subst hrm
    simp only [Function.comp_apply, dreamBoost, dreamMark]
    split_ifs with hcond
    · exact ⟨le_min (by norm_num) (by linarith), min_le_left _ _, h2⟩
    · exact ⟨h0, h1, h2⟩

/-- Witness for C9 starting from the empty store. -/
theorem c9_invariants_witness :
    Inv ([] : List MemoryRecord) ∧
    (Inv (createMemory [] "mem_0" 0 "note" "text" .neutral .user_input
        .manual).2 ∧
      Inv (accessMemory [] "mem_0" 0).2 ∧
      Inv (dreamStateProcessing ([] : List MemoryRecord))) :=
  ⟨fun m hm => absurd hm (List.not_mem_nil m),
    c9_invariants [] (fun m hm => absurd hm (List.not_mem_nil m))
      "mem_0" 0 "note" "text" .neutral .user_input .manual "mem_0"⟩

/-- C1 counterexample: `createMemory` called with empty title and empty
content does not fail — it appends a record to the (initially empty) store —
and `retrieveMemories` called with limit 0 does not fail — it returns a
record from a one-record store. -/
theorem c1_invalid_input_counterexample :
    ((createMemory [] "mem_0" 0 "" "" .neutral .user_input .manual).2).length
        = 1 ∧
    (retrieveMemories [sampleRecord] 0 { limit := some 0 }).length = 1 := by
  constructor
  · rfl
  · simp [retrieveMemories, passesQuery, effectiveLimit, jsSliceTo]

/-- C1 amended: the core performs no input validation. `createMemory` with
empty title and empty content succeeds and appends the new record to the
store; `retrieveMemories` treats a limit of 0 as absent (the default 10
applies, so it behaves exactly as with no limit) and a negative limit makes
the final slice drop records from the end of the sorted result; no typed
InvalidInput failure exists in the core. -/
theorem c1_no_validation_amended (store : List MemoryRecord) (freshId : String)
    (now : ℚ) (emotion : Emotion) (sourceType : SourceType)
    (writeMethod : WriteMethod) (query : MemoryQuery) (n : ℤ) (hn : n < 0) :
    (createMemory store freshId now "" "" emotion sourceType writeMethod).2
      = store ++ [(createMemory store freshId now "" "" emotion sourceType
          writeMethod).1] ∧
    retrieveMemories store now { query with limit := some 0 }
      = retrieveMemories store now { query with limit := none } ∧
    ∀ l : List RankedMemory, jsSliceTo l n
      = l.take ((l.length : ℤ) + n).toNat := by
  refine ⟨rfl, rfl, ?_⟩
  intro l
  simp only [jsSliceTo, if_pos hn]

/-- Witness for C1's amended statement at limit -1. -/
theorem c1_no_validation_amended_witness :
    ((-1:ℤ) < 0) ∧
    (createMemory [sampleRecord] "mem_0" 0 "" "" .neutral .user_input
        .manual).2
      = [sampleRecord] ++ [(createMemory [sampleRecord] "mem_0" 0 "" ""
          .neutral .user_input .manual).1] :=
  ⟨by decide,
    (c1_no_validation_amended [sampleRecord] "mem_0" 0 .neutral .user_input
      .manual {} (-1) (by decide)).1⟩

end Neuronix
